import Mathlib

/-!
Verification of the attendance event engine of `clockinbot.py`.

The Python source is shallowly embedded: strings are Lean `String`s
(ASCII fragment; `str.lower`/`str.upper` are modelled on the ASCII range,
which covers every tag, catalog key and marker used by the program),
Python dicts become insertion-ordered association lists with Python's
update semantics (updating an existing key keeps its position, a new key
is appended), timezone-aware timestamps already converted to Asia/Manila
become a calendar date plus a time of day, and the Postgres collaborator
becomes an explicit list of rows.  Every operation is a computable
function so that concrete runs evaluate by `decide`.
-/

namespace AttendanceBot

/-- The 26 ASCII case pairs. -/
def CASE_PAIRS : List (Char × Char) :=
  [('A','a'), ('B','b'), ('C','c'), ('D','d'), ('E','e'), ('F','f'), ('G','g'),
   ('H','h'), ('I','i'), ('J','j'), ('K','k'), ('L','l'), ('M','m'), ('N','n'),
   ('O','o'), ('P','p'), ('Q','q'), ('R','r'), ('S','s'), ('T','t'), ('U','u'),
   ('V','v'), ('W','w'), ('X','x'), ('Y','y'), ('Z','z')]

/-- Python `str.lower` on one character, restricted to ASCII. -/
def lowerChar (c : Char) : Char :=
  match CASE_PAIRS.find? (fun p => p.1 = c) with
  | some p => p.2
  | none => c

/-- Python `str.upper` on one character, restricted to ASCII. -/
def upperChar (c : Char) : Char :=
  match CASE_PAIRS.find? (fun p => p.2 = c) with
  | some p => p.1
  | none => c

def asciiLowerL (l : List Char) : List Char := l.map lowerChar

def asciiUpperL (l : List Char) : List Char := l.map upperChar

/-- Python `str.lower` (ASCII fragment). -/
def asciiLower (s : String) : String := ⟨asciiLowerL s.data⟩

/-- Python `str.upper` (ASCII fragment). -/
def asciiUpper (s : String) : String := ⟨asciiUpperL s.data⟩

/-- Model of `normalize_tag` on character lists: lower-case, then delete every
space, underscore, slash, ampersand and letter `x` (Python's
`str.replace(c, "")` deletes all occurrences of `c`, i.e. filters it out;
the five replaces are the five filters, in source order). -/
def normTagL (l : List Char) : List Char :=
  (((((asciiLowerL l).filter (fun c => c ≠ ' ')).filter (fun c => c ≠ '_')).filter
      (fun c => c ≠ '/')).filter (fun c => c ≠ '&')).filter (fun c => c ≠ 'x')

/-- Model of `normalize_tag` from clockinbot.py. -/
def normalize_tag (tag : String) : String := ⟨normTagL tag.data⟩

theorem lowerChar_idem (c : Char) : lowerChar (lowerChar c) = lowerChar c := by
  rcases hfind : CASE_PAIRS.find? (fun p => p.1 = c) with _ | p
  · have hc : lowerChar c = c := by unfold lowerChar; rw [hfind]
    rw [hc, hc]
  · have hc : lowerChar c = p.2 := by unfold lowerChar; rw [hfind]
    rw [hc]
    have hp : p ∈ CASE_PAIRS := List.mem_of_find?_eq_some hfind
    fin_cases hp <;> rfl

theorem map_id_of_fix {f : Char → Char} :
    ∀ m : List Char, (∀ c ∈ m, f c = c) → m.map f = m
  | [], _ => rfl
  | c :: cs, h => by
      rw [List.map_cons, h c (by simp), map_id_of_fix cs (fun d hd => h d (by simp [hd]))]

theorem normTagL_mem {c : Char} {l : List Char} (hc : c ∈ normTagL l) :
    c ∈ asciiLowerL l ∧ c ≠ ' ' ∧ c ≠ '_' ∧ c ≠ '/' ∧ c ≠ '&' ∧ c ≠ 'x' := by
  unfold normTagL at hc
  simp only [List.mem_filter, decide_eq_true_eq] at hc
  exact ⟨hc.1.1.1.1.1, hc.1.1.1.1.2, hc.1.1.1.2, hc.1.1.2, hc.1.2, hc.2⟩

theorem map_lowerChar_normTagL (l : List Char) :
    asciiLowerL (normTagL l) = normTagL l := by
  apply map_id_of_fix
  intro c hc
  obtain ⟨d, _, rfl⟩ := List.mem_map.mp (normTagL_mem hc).1
  exact lowerChar_idem d

theorem normTagL_idem (l : List Char) : normTagL (normTagL l) = normTagL l := by
  have hf : ∀ (p : Char → Bool), (∀ c ∈ normTagL l, p c = true) →
      (normTagL l).filter p = normTagL l := fun p hp => List.filter_eq_self.mpr hp
  have h1 : (normTagL l).filter (fun c => c ≠ ' ') = normTagL l :=
    hf _ (fun c hc => decide_eq_true (normTagL_mem hc).2.1)
  have h2 : (normTagL l).filter (fun c => c ≠ '_') = normTagL l :=
    hf _ (fun c hc => decide_eq_true (normTagL_mem hc).2.2.1)
  have h3 : (normTagL l).filter (fun c => c ≠ '/') = normTagL l :=
    hf _ (fun c hc => decide_eq_true (normTagL_mem hc).2.2.2.1)
  have h4 : (normTagL l).filter (fun c => c ≠ '&') = normTagL l :=
    hf _ (fun c hc => decide_eq_true (normTagL_mem hc).2.2.2.2.1)
  have h5 : (normTagL l).filter (fun c => c ≠ 'x') = normTagL l :=
    hf _ (fun c hc => decide_eq_true (normTagL_mem hc).2.2.2.2.2)
  calc normTagL (normTagL l)
      = (((((asciiLowerL (normTagL l)).filter (fun c => c ≠ ' ')).filter
          (fun c => c ≠ '_')).filter (fun c => c ≠ '/')).filter
          (fun c => c ≠ '&')).filter (fun c => c ≠ 'x') := rfl
    _ = normTagL l := by rw [map_lowerChar_normTagL, h1, h2, h3, h4, h5]

/-- C9: the tag normalizer is a pure total function (it is a Lean
function `String → String`, defined for every input, worst case the
empty string), idempotent, and identifies `"Kissing_Cousins / X"` with
`"kissingcousinsx"`. -/
theorem normalize_tag_idempotent_and_insensitive :
    (∀ s : String, normalize_tag (normalize_tag s) = normalize_tag s) ∧
    normalize_tag "Kissing_Cousins / X" = normalize_tag "kissingcousinsx" ∧
    normalize_tag "Kissing_Cousins / X" = "kissingcousins" ∧
    normalize_tag "" = "" := by
  refine ⟨fun s => ?_, by decide, by decide, by decide⟩
  show (⟨normTagL (normTagL s.data)⟩ : String) = ⟨normTagL s.data⟩
  rw [normTagL_idem]

/-! ## Dates and times (Asia/Manila wall clock) -/

/-- A calendar date, as Python `datetime.date` (proleptic Gregorian). -/
structure PDate where
  year : Int
  month : Nat
  day : Nat
deriving DecidableEq

/-- A time of day, as Python `datetime.time` (microseconds not modelled;
every timestamp the claims exercise is on a whole second). Comparison is
lexicographic, as in Python. -/
structure PTime where
  hour : Nat
  minute : Nat
  second : Nat
deriving DecidableEq

/-- A timezone-aware timestamp already converted to Asia/Manila
(`to_ph_time` applied): its local calendar date and local time of day. -/
structure PDateTime where
  date : PDate
  time : PTime
deriving DecidableEq

def timeLtB (a b : PTime) : Bool :=
  a.hour < b.hour ∨ (a.hour = b.hour ∧
    (a.minute < b.minute ∨ (a.minute = b.minute ∧ a.second < b.second)))

def dateLtB (a b : PDate) : Bool :=
  a.year < b.year ∨ (a.year = b.year ∧
    (a.month < b.month ∨ (a.month = b.month ∧ a.day < b.day)))

def dtLtB (a b : PDateTime) : Bool :=
  dateLtB a.date b.date ∨ (a.date = b.date ∧ timeLtB a.time b.time)

/-- Gregorian leap year, as `calendar.isleap` / `datetime`. -/
def isLeap (y : Int) : Bool := y % 4 = 0 ∧ (y % 100 ≠ 0 ∨ y % 400 = 0)

def daysInMonth (y : Int) (m : Nat) : Nat :=
  if m = 1 ∨ m = 3 ∨ m = 5 ∨ m = 7 ∨ m = 8 ∨ m = 10 ∨ m = 12 then 31
  else if m = 2 then (if isLeap y then 29 else 28)
  else if m = 4 ∨ m = 6 ∨ m = 9 ∨ m = 11 then 30
  else 0

def ValidDate (d : PDate) : Prop :=
  1 ≤ d.month ∧ d.month ≤ 12 ∧ 1 ≤ d.day ∧ d.day ≤ daysInMonth d.year d.month

instance (d : PDate) : Decidable (ValidDate d) := by
  unfold ValidDate; infer_instance

/-- Python `date - timedelta(days=1)`: the previous calendar date
(ordinal subtraction in the proleptic Gregorian calendar, written out
with the month/year borrow). -/
def predDate (d : PDate) : PDate :=
  if 2 ≤ d.day then ⟨d.year, d.month, d.day - 1⟩
  else if 2 ≤ d.month then ⟨d.year, d.month - 1, daysInMonth d.year (d.month - 1)⟩
  else ⟨d.year - 1, 12, 31⟩

/-- The next calendar date; the spec-side inverse used to say that
`attendance_day_for` yields "the previous calendar date". -/
def succDate (d : PDate) : PDate :=
  if d.day < daysInMonth d.year d.month then ⟨d.year, d.month, d.day + 1⟩
  else if d.month < 12 then ⟨d.year, d.month + 1, 1⟩
  else ⟨d.year + 1, 1, 1⟩

/-- Model of `RESET_TIME_PH = time(6, 0)`: the attendance day starts at 06:00. -/
def RESET_TIME_PH : PTime := ⟨6, 0, 0⟩

/-- Model of `attendance_day_for` from clockinbot.py: a PH timestamp before 06:00
belongs to the previous calendar date. -/
def attendance_day_for (dt : PDateTime) : PDate :=
  if timeLtB dt.time RESET_TIME_PH then predDate dt.date else dt.date

theorem succDate_predDate (d : PDate) (hd : ValidDate d) :
    succDate (predDate d) = d := by
  obtain ⟨y, m, dd⟩ := d
  obtain ⟨h1, h2, h3, h4⟩ := hd
  simp only at h1 h2 h3 h4
  unfold predDate
  dsimp only
  by_cases hday : 2 ≤ dd
  · rw [if_pos hday]
    unfold succDate
    dsimp only
    rw [if_pos (by omega : dd - 1 < daysInMonth y m)]
    simp only [PDate.mk.injEq]
    refine ⟨?_, ?_, ?_⟩ <;> first | trivial | omega
  · rw [if_neg hday]
    by_cases hm : 2 ≤ m
    · rw [if_pos hm]
      unfold succDate
      dsimp only
      rw [if_neg (by omega : ¬ daysInMonth y (m - 1) < daysInMonth y (m - 1)),
        if_pos (by omega : m - 1 < 12)]
      simp only [PDate.mk.injEq]
      refine ⟨?_, ?_, ?_⟩ <;> first | trivial | omega
    · rw [if_neg hm]
      unfold succDate
      dsimp only
      have h31 : daysInMonth (y - 1) 12 = 31 := by simp [daysInMonth]
      rw [h31, if_neg (by omega : ¬ (31 : Nat) < 31), if_neg (by omega : ¬ (12 : Nat) < 12)]
      simp only [PDate.mk.injEq]
      refine ⟨?_, ?_, ?_⟩ <;> first | trivial | omega

theorem predDate_ne (d : PDate) (hd : ValidDate d) : predDate d ≠ d := by
  obtain ⟨y, m, dd⟩ := d
  obtain ⟨h1, h2, h3, h4⟩ := hd
  simp only at h1 h2 h3 h4
  unfold predDate
  dsimp only
  by_cases hday : 2 ≤ dd
  · rw [if_pos hday]
    simp only [ne_eq, PDate.mk.injEq, not_and]
    omega
  · rw [if_neg hday]
    by_cases hm : 2 ≤ m
    · rw [if_pos hm]
      simp only [ne_eq, PDate.mk.injEq, not_and]
      omega
    · rw [if_neg hm]
      simp only [ne_eq, PDate.mk.injEq, not_and]
      omega

/-- C5: resolving the attendance day with cutoff 06:00 yields the
previous calendar date exactly when the local time of day is strictly
before 06:00, and the current calendar date otherwise; in particular
05:59:59 maps to the previous date and 06:00:00 to the current date.
(`attendance_day_for` is a Lean function, hence pure, total and
deterministic.) -/
theorem attendance_day_for_spec :
    (∀ dt : PDateTime, ValidDate dt.date →
      (timeLtB dt.time RESET_TIME_PH = true →
        succDate (attendance_day_for dt) = dt.date ∧ attendance_day_for dt ≠ dt.date) ∧
      (timeLtB dt.time RESET_TIME_PH = false → attendance_day_for dt = dt.date)) ∧
    attendance_day_for ⟨⟨2026, 3, 1⟩, ⟨5, 59, 59⟩⟩ = ⟨2026, 2, 28⟩ ∧
    attendance_day_for ⟨⟨2026, 3, 1⟩, ⟨6, 0, 0⟩⟩ = ⟨2026, 3, 1⟩ ∧
    attendance_day_for ⟨⟨2024, 3, 1⟩, ⟨5, 59, 59⟩⟩ = ⟨2024, 2, 29⟩ := by
  refine ⟨fun dt hv => ⟨fun hlt => ?_, fun hge => ?_⟩, by decide, by decide, by decide⟩
  · unfold attendance_day_for
    rw [if_pos hlt]
    exact ⟨succDate_predDate dt.date hv, predDate_ne dt.date hv⟩
  · unfold attendance_day_for
    rw [if_neg (by simp [hge])]

/-- Witness for C5 at a concrete timestamp: 2026-03-01 05:59:59 PH is
resolved to the previous calendar date 2026-02-28. -/
theorem attendance_day_for_spec_witness :
    succDate (attendance_day_for ⟨⟨2026, 3, 1⟩, ⟨5, 59, 59⟩⟩) = ⟨2026, 3, 1⟩ ∧
    attendance_day_for ⟨⟨2026, 3, 1⟩, ⟨5, 59, 59⟩⟩ ≠ ⟨2026, 3, 1⟩ :=
  (attendance_day_for_spec.1 ⟨⟨2026, 3, 1⟩, ⟨5, 59, 59⟩⟩ (by decide)).1 (by decide)

/-! ## Python dicts as insertion-ordered association lists -/

/-- Python `dict` lookup (`m.get(k)` / `k in m`). -/
def dget {α β : Type} [DecidableEq α] : List (α × β) → α → Option β
  | [], _ => none
  | p :: rest, k => if p.1 = k then some p.2 else dget rest k

/-- Python `dict` update `m[k] = v`: updating an existing key keeps its
position, a new key is appended. -/
def dset {α β : Type} [DecidableEq α] : List (α × β) → α → β → List (α × β)
  | [], k, v => [(k, v)]
  | p :: rest, k, v => if p.1 = k then (k, v) :: rest else p :: dset rest k v

/-- Python dict built from a sequence of key-value pairs (comprehension
semantics: first occurrence of a key fixes its position, a later
duplicate overwrites the value). -/
def pyDictOf {α β : Type} [DecidableEq α] (l : List (α × β)) : List (α × β) :=
  l.foldl (fun m p => dset m p.1 p.2) []

theorem dget_dset_self {α β : Type} [DecidableEq α] (m : List (α × β)) (k : α) (v : β) :
    dget (dset m k v) k = some v := by
  induction m with
  | nil => simp [dget, dset]
  | cons p rest ih =>
    unfold dset
    by_cases hp : p.1 = k
    · rw [if_pos hp]
      simp [dget]
    · rw [if_neg hp]
      unfold dget
      rw [if_neg hp]
      exact ih

theorem dget_dset_ne {α β : Type} [DecidableEq α] (m : List (α × β)) (k k' : α) (v : β)
    (h : k ≠ k') : dget (dset m k v) k' = dget m k' := by
  induction m with
  | nil => simp [dget, dset, h]
  | cons p rest ih =>
    unfold dset
    by_cases hp : p.1 = k
    · rw [if_pos hp]
      unfold dget
      rw [if_neg h, if_neg (hp ▸ h)]
    · rw [if_neg hp]
      unfold dget
      by_cases hp' : p.1 = k'
      · rw [if_pos hp', if_pos hp']
      · rw [if_neg hp', if_neg hp']
        exact ih

theorem dset_length_of_mem {α β : Type} [DecidableEq α] (m : List (α × β)) (k : α) (v : β)
    (h : (dget m k).isSome) : (dset m k v).length = m.length := by
  induction m with
  | nil => simp [dget] at h
  | cons p rest ih =>
    unfold dset
    by_cases hp : p.1 = k
    · rw [if_pos hp]
      simp
    · rw [if_neg hp]
      unfold dget at h
      rw [if_neg hp] at h
      simp [ih h]

theorem dget_mem {α β : Type} [DecidableEq α] :
    ∀ (m : List (α × β)) (k : α) (v : β), dget m k = some v → (k, v) ∈ m
  | [], _, _, h => by simp [dget] at h
  | p :: rest, k, v, h => by
    unfold dget at h
    by_cases hp : p.1 = k
    · rw [if_pos hp] at h
      obtain ⟨a, b⟩ := p
      obtain rfl : a = k := hp
      obtain rfl : b = v := by simpa using h
      exact List.mem_cons_self _ _
    · rw [if_neg hp] at h
      exact List.mem_cons_of_mem _ (dget_mem rest k v h)

/-! ## Lines and stripping (Python `str.split("\n")` and `str.strip`) -/

/-- Python `text.split("\n")` on character lists. -/
def linesOf : List Char → List (List Char)
  | [] => [[]]
  | c :: cs =>
    if c = '\n' then [] :: linesOf cs
    else
      match linesOf cs with
      | [] => [[c]]
      | l :: ls => (c :: l) :: ls

theorem linesOf_ne_nil : ∀ l : List Char, linesOf l ≠ []
  | [] => by simp [linesOf]
  | c :: cs => by
    unfold linesOf
    by_cases hc : c = '\n'
    · rw [if_pos hc]; simp
    · rw [if_neg hc]
      rcases h : linesOf cs with _ | ⟨a, b⟩ <;> simp

/-- Python whitespace for `str.strip()` (ASCII: space, tab, LF, VT, FF, CR). -/
def isPyWs (c : Char) : Bool := c.toNat = 32 ∨ (9 ≤ c.toNat ∧ c.toNat ≤ 13)

/-- Python `str.strip()` on a character list. -/
def pyStrip (l : List Char) : List Char :=
  ((l.dropWhile isPyWs).reverse.dropWhile isPyWs).reverse

/-! ## The parser (`parse_clock_in`) -/

/-- Model of `SHIFT_TAGS` from clockinbot.py. -/
def SHIFT_TAGS : List (String × String) :=
  [("clockinprime", "prime"), ("clockinmidshift", "midshift"), ("clockinclosing", "closing")]

/-- The non-empty stripped lines of a message
(`[l.strip() for l in text.split("\n") if l.strip()]`). -/
def plines (text : String) : List (List Char) :=
  ((linesOf text.data).map pyStrip).filter (fun l => ¬ l.isEmpty)

/-- Does some line satisfy `l.upper() == "CLOCK IN"`? -/
def hasMarkerLine (text : String) : Bool :=
  (plines text).any (fun l => asciiUpperL l = "CLOCK IN".data)

/-- Model of `l.startswith("#")` and, if so, `normalize_tag(l[1:])`. -/
def lineTag : List Char → Option String
  | [] => none
  | c :: rest => if c = '#' then some ⟨normTagL rest⟩ else none

/-- One step of the tag-scanning loop of `parse_clock_in`: a shift tag
sets the shift, any other hashtag overwrites the page-key candidate. -/
def tagStep (acc : String × String) (l : List Char) : String × String :=
  match lineTag l with
  | none => acc
  | some tag =>
    match dget SHIFT_TAGS tag with
    | some sh => (acc.1, sh)
    | none => (tag, acc.2)

/-- Model of `parse_clock_in` from clockinbot.py: returns
`(valid, page_key, shift)`. -/
def parse_clock_in (text : String) : Bool × String × String :=
  if hasMarkerLine text then
    let ps := (plines text).foldl tagStep ("", "")
    if ps.1 = "" ∨ ps.2 = "" then (false, "", "") else (true, ps.1, ps.2)
  else (false, "", "")

/-- The shift names contributed by the shift-tag lines, in order. -/
def shiftTagsL (ls : List (List Char)) : List String :=
  ls.filterMap (fun l => (lineTag l).bind (fun t => dget SHIFT_TAGS t))

/-- The normalized page-key candidates (non-shift hashtag lines), in order. -/
def pageTagsL (ls : List (List Char)) : List String :=
  ls.filterMap (fun l => (lineTag l).bind
    (fun t => if (dget SHIFT_TAGS t).isSome then none else some t))

/-- The last element of a list, or a default. -/
def lastD (l : List String) (d : String) : String := (l.getLast?).getD d

theorem lastD_cons (a : String) (l : List String) (d : String) :
    lastD (a :: l) d = lastD l a := by
  cases l with
  | nil => rfl
  | cons b bs =>
    unfold lastD
    rw [List.getLast?_cons_cons]
    rcases h : (b :: bs).getLast? with _ | x
    · exact absurd (List.getLast?_eq_none_iff.mp h) (by simp)
    · rfl

theorem foldl_tagStep (ls : List (List Char)) :
    ∀ p s : String, ls.foldl tagStep (p, s) =
      (lastD (pageTagsL ls) p, lastD (shiftTagsL ls) s) := by
  induction ls with
  | nil => intro p s; rfl
  | cons l rest ih =>
    intro p s
    rw [List.foldl_cons]
    rcases hl : lineTag l with _ | tag
    · have hstep : tagStep (p, s) l = (p, s) := by unfold tagStep; rw [hl]
      rw [hstep, ih]
      have h1 : pageTagsL (l :: rest) = pageTagsL rest := by
        unfold pageTagsL; rw [List.filterMap_cons, hl]; rfl
      have h2 : shiftTagsL (l :: rest) = shiftTagsL rest := by
        unfold shiftTagsL; rw [List.filterMap_cons, hl]; rfl
      rw [h1, h2]
    · rcases hsh : dget SHIFT_TAGS tag with _ | sh
      · have hstep : tagStep (p, s) l = (tag, s) := by simp only [tagStep, hl, hsh]
        rw [hstep, ih]
        have h1 : pageTagsL (l :: rest) = tag :: pageTagsL rest := by
          unfold pageTagsL
          rw [List.filterMap_cons, hl]
          simp [hsh]
        have h2 : shiftTagsL (l :: rest) = shiftTagsL rest := by
          unfold shiftTagsL
          rw [List.filterMap_cons, hl]
          simp [hsh]
        rw [h1, h2, lastD_cons]
      · have hstep : tagStep (p, s) l = (p, sh) := by simp only [tagStep, hl, hsh]
        rw [hstep, ih]
        have h1 : pageTagsL (l :: rest) = pageTagsL rest := by
          unfold pageTagsL
          rw [List.filterMap_cons, hl]
          simp [hsh]
        have h2 : shiftTagsL (l :: rest) = sh :: shiftTagsL rest := by
          unfold shiftTagsL
          rw [List.filterMap_cons, hl]
          simp [hsh]
        rw [h1, h2, lastD_cons]

theorem shiftTagsL_vals {ls : List (List Char)} {v : String} (h : v ∈ shiftTagsL ls) :
    v = "prime" ∨ v = "midshift" ∨ v = "closing" := by
  unfold shiftTagsL at h
  obtain ⟨l, _, hl⟩ := List.mem_filterMap.mp h
  simp only [Option.bind_eq_some] at hl
  obtain ⟨tag, _, hv⟩ := hl
  have hmem2 := dget_mem SHIFT_TAGS tag v hv
  fin_cases hmem2 <;> simp

theorem lastD_ne_empty {ls : List (List Char)} (h : shiftTagsL ls ≠ []) :
    lastD (shiftTagsL ls) "" ≠ "" := by
  have hmem : lastD (shiftTagsL ls) "" ∈ shiftTagsL ls := by
    unfold lastD
    rw [List.getLast?_eq_getLast_of_ne_nil h]
    simp [List.getLast_mem]
  rcases shiftTagsL_vals hmem with h1 | h1 | h1 <;> rw [h1] <;> decide

/-- C4 (amended): `parse_clock_in` rejects exactly the messages with no
"CLOCK IN" line, no shift tag, or whose last non-shift hashtag
normalizes to the empty string; on success the shift is the last shift
tag's table value and the page key the last non-shift hashtag's
normalized key.  Rejection returns `(false, "", "")` (the function is
total, nothing is raised). -/
theorem parse_clock_in_characterization (text : String) :
    parse_clock_in text =
      if hasMarkerLine text ∧ shiftTagsL (plines text) ≠ [] ∧
          lastD (pageTagsL (plines text)) "" ≠ ""
        then (true, lastD (pageTagsL (plines text)) "", lastD (shiftTagsL (plines text)) "")
        else (false, "", "") := by
  unfold parse_clock_in
  by_cases hm : hasMarkerLine text
  · rw [if_pos hm]
    simp only
    rw [foldl_tagStep]
    by_cases hsh : shiftTagsL (plines text) = []
    · rw [hsh]
      have : lastD ([] : List String) "" = "" := rfl
      rw [this]
      rw [if_pos (Or.inr rfl), if_neg (by simp [hsh])]
    · have hne := lastD_ne_empty hsh
      by_cases hpg : lastD (pageTagsL (plines text)) "" = ""
      · rw [if_pos (Or.inl hpg), if_neg (by simp [hpg])]
      · rw [if_neg (by simp [hpg, hne]), if_pos ⟨hm, hsh, hpg⟩]
  · rw [if_neg hm, if_neg (by simp [hm])]

/-- C4 counterexample: this message has a "CLOCK IN" line, a shift tag
and a non-shift page hashtag (`#islafree`), so the claim says it is
accepted; but its last non-shift hashtag `#x` normalizes to `""`, which
clears the page key, and `parse_clock_in` rejects it. -/
theorem parse_clock_in_counterexample :
    parse_clock_in "CLOCK IN\n#clockinprime\n#islafree\n#x" = (false, "", "") ∧
    hasMarkerLine "CLOCK IN\n#clockinprime\n#islafree\n#x" = true ∧
    shiftTagsL (plines "CLOCK IN\n#clockinprime\n#islafree\n#x") = ["prime"] ∧
    "islafree" ∈ pageTagsL (plines "CLOCK IN\n#clockinprime\n#islafree\n#x") := by
  decide

/-! ## The page catalog -/

/-- Model of `RAW_PAGES` from clockinbot.py (raw keys as written in the source). -/
def RAW_PAGES : List (String × String) :=
  [("alannafreeoftv", "Alanna Free / OFTV"),
   ("alannapaid", "Alanna Paid"),
   ("alannawelcome", "Alanna Welcome"),
   ("alexis", "Alexis"),
   ("allyfree", "Ally Free"),
   ("allypaid", "Ally Paid"),
   ("aprilb", "April B"),
   ("ashley", "Ashley"),
   ("asiadollpaidfree", "Asia Doll Paid / Free"),
   ("autumnfree", "Autumn Free"),
   ("autumnpaid", "Autumn Paid"),
   ("autumnwelcome", "Autumn Welcome"),
   ("brifreeoftv", "Bri Free / OFTV"),
   ("bripaid", "Bri Paid"),
   ("briwelcome", "Bri Welcome"),
   ("brittanyamain", "Brittanya Main"),
   ("brittanyapaidfree", "Brittanya Paid / Free"),
   ("bronwinfree", "Bronwin Free"),
   ("bronwinoftvmcarteroftv", "Bronwin OFTV & MCarter OFTV"),
   ("bronwinpaid", "Bronwin Paid"),
   ("bronwinwelcome", "Bronwin Welcome"),
   ("carterpaidfree", "Carter Paid / Free"),
   ("christipaidfree", "Christi Paid and Free"),
   ("claire", "Claire"),
   ("cocofree", "Coco Free"),
   ("cocopaID", "Coco Paid"),
   ("cyndiecynthiacolby", "Cyndie, Cynthia & Colby"),
   ("dandfreeoftv", "Dan D Free / OFTV"),
   ("dandpaid", "Dan D Paid"),
   ("dandwelcome", "Dan D Welcome"),
   ("emilyraypaidfree", "Emily Ray Paid / Free"),
   ("emilyray", "Emily Ray"),
   ("essiepaidfree", "Essie Paid / Free"),
   ("fanslyteam1", "Fansly Team1"),
   ("fanslyteam2", "Fansly Team2"),
   ("fanslyteam3", "Fansly Team3"),
   ("gracefree", "Grace Free"),
   ("haileywfree", "Hailey W Free"),
   ("haileywpaid", "Hailey W Paid"),
   ("hazeyfree", "Hazey Free"),
   ("hazeypaid", "Hazey Paid"),
   ("hazeywelcome", "Hazey Welcome"),
   ("honeynoppv", "Honey NO PPV"),
   ("honeyvip", "Honey VIP"),
   ("isabellaxizziekay", "Isabella x Izzie Kay"),
   ("islafree", "Isla Free"),
   ("islaoftv", "Isla OFTV"),
   ("islapaid", "Isla Paid"),
   ("islawelcome", "Isla Welcome"),
   ("kayleexjasmyn", "Kaylee X Jasmyn"),
   ("kissingcousinsxvalerievip", "Kissing Cousins X Valerie VIP"),
   ("lexipaid", "Lexi Paid"),
   ("lilahfree", "Lilah Free"),
   ("lilahpaid", "Lilah Paid"),
   ("livv", "Livv"),
   ("mathildefree", "Mathilde Free"),
   ("mathildepaid", "Mathilde Paid"),
   ("mathildewelcome", "Mathilde Welcome"),
   ("mathildepaidxisaxalexalana", "Mathilde Paid x Isa A x Alexa Lana"),
   ("michellefree", "Michelle Free"),
   ("michellevip", "Michelle VIP"),
   ("mommycarter", "Mommy Carter"),
   ("natalialfree", "Natalia L Free"),
   ("natalialpaid", "Natalia L Paid"),
   ("natalialnicolefansly", "Natalia L, Nicole Fansly"),
   ("natalierfree", "Natalie R Free"),
   ("natalierpaid", "Natalie R Paid"),
   ("paris", "Paris"),
   ("popstfree", "Pops T Free"),
   ("popstpaid", "Pops T Paid"),
   ("rubirosefree", "Rubi Rose Free"),
   ("rubirosepaid", "Rubi Rose Paid"),
   ("salah", "Salah"),
   ("sarahc", "Sarah C"),
   ("skypaidfree", "Sky Paid / Free")]

/-- Model of `EXPECTED_PAGES = {normalize_tag(k): v for k, v in RAW_PAGES.items()}`. -/
def EXPECTED_PAGES : List (String × String) :=
  pyDictOf (RAW_PAGES.map (fun p => (normalize_tag p.1, p.2)))

/-! ## Fuzzy page suggestion (`difflib.get_close_matches`, n=1, cutoff=0.7) -/

/-- Length of the common run of two character lists starting at their heads. -/
def runLen : List Char → List Char → Nat
  | a :: as, b :: bs => if a = b then runLen as bs + 1 else 0
  | _, _ => 0

/-- The longest matching block of `a` and `b`: among the maximal-length
common runs, the one with the smallest start in `a`, then in `b` —
exactly what `difflib.SequenceMatcher.find_longest_match` returns when
no element is junk (our inputs are far below the autojunk threshold).
Returns `(i, j, size)`. -/
def bestBlock (a b : List Char) : Nat × Nat × Nat :=
  (List.range a.length).foldl (fun best i =>
    (List.range b.length).foldl (fun best j =>
      let k := runLen (a.drop i) (b.drop j)
      if best.2.2 < k then (i, j, k) else best) best) (0, 0, 0)

/-- Total number of matched characters over the recursive block
decomposition (`sum(size for block in get_matching_blocks())`), the `M`
of `SequenceMatcher.ratio = 2M / T`.  Fuel decreases strictly because a
non-empty block splits `a` into strictly shorter pieces. -/
def matchSumF : Nat → List Char → List Char → Nat
  | 0, _, _ => 0
  | fuel + 1, a, b =>
    let blk := bestBlock a b
    if blk.2.2 = 0 then 0
    else matchSumF fuel (a.take blk.1) (b.take blk.2.1) + blk.2.2 +
      matchSumF fuel (a.drop (blk.1 + blk.2.2)) (b.drop (blk.2.1 + blk.2.2))

def matchSum (a b : List Char) : Nat := matchSumF (a.length + 1) a b

/-- Python string comparison (code-point lexicographic). -/
def charListLt : List Char → List Char → Bool
  | [], [] => false
  | [], _ :: _ => true
  | _ :: _, [] => false
  | a :: as, b :: bs =>
    if a.toNat < b.toNat then true
    else if b.toNat < a.toNat then false
    else charListLt as bs

/-- Model of `suggest_page` from clockinbot.py:
`difflib.get_close_matches(input_key, EXPECTED_PAGES.keys(), n=1, cutoff=0.7)`.
A candidate qualifies when `ratio = 2M/T ≥ 0.7`, i.e. `20M ≥ 7T` (for the
small `M`, `T` at hand the float comparison agrees with the exact rational
one); `heapq.nlargest(1, ...)` keeps the maximum of the pairs
`(ratio, word)`, i.e. the best ratio with ties broken towards the
lexicographically larger word. -/
def suggest_page (input_key : String) : Option String :=
  ((EXPECTED_PAGES.map Prod.fst).foldl (fun best k =>
    let m := matchSum k.data input_key.data
    let t := k.data.length + input_key.data.length
    if 20 * m < 7 * t then best
    else
      match best with
      | none => some (m, t, k)
      | some b =>
        if m * b.2.1 > b.1 * t ∨ (m * b.2.1 = b.1 * t ∧ charListLt b.2.2.data k.data)
        then some (m, t, k) else best) none).map (fun b => b.2.2)

/-! ## The in-memory ledger and the durable store -/

/-- One `clock_ins[shift][page_key]` value: `{"users": {...}, "covers": {...}}`
(name → PH timestamp, insertion-ordered). -/
structure Entry where
  users : List (String × PDateTime)
  covers : List (String × PDateTime)
deriving DecidableEq

/-- Model of `clock_ins[shift]`: page key → entry. -/
abbrev PageMap := List (String × Entry)

/-- Model of `clock_ins`: shift → page map. -/
abbrev Ledgers := List (String × PageMap)

/-- The initial `clock_ins` dictionary. -/
def initLedgers : Ledgers := [("prime", []), ("midshift", []), ("closing", [])]

def pagesOf (ls : Ledgers) (shift : String) : PageMap := (dget ls shift).getD []

/-- Model of `init_page` from clockinbot.py. (Python raises `KeyError` on a shift
outside `clock_ins`; that path is unreachable because every shift fed in
comes from `SHIFT_TAGS`, and the model leaves the state unchanged.) -/
def init_page (ls : Ledgers) (shift page_key : String) : Ledgers :=
  match dget ls shift with
  | none => ls
  | some pages =>
    if (dget pages page_key).isSome then ls
    else dset ls shift (dset pages page_key ⟨[], []⟩)

/-- Model of `clock_ins[shift][page_key]["users"][user] = ph_time`. -/
def putUser (ls : Ledgers) (shift page_key name : String) (ts : PDateTime) : Ledgers :=
  match dget ls shift with
  | none => ls
  | some pages =>
    match dget pages page_key with
    | none => ls
    | some e => dset ls shift (dset pages page_key { e with users := dset e.users name ts })

/-- Model of `clock_ins[shift][page_key]["covers"][user] = ph_time`. -/
def putCover (ls : Ledgers) (shift page_key name : String) (ts : PDateTime) : Ledgers :=
  match dget ls shift with
  | none => ls
  | some pages =>
    match dget pages page_key with
    | none => ls
    | some e => dset ls shift (dset pages page_key { e with covers := dset e.covers name ts })

/-- The `init_page` + upsert sequence performed for a clock-in
(`handle_message` lines 420-421 for users, `cover_clockin` for covers). -/
def recordClockIn (ls : Ledgers) (shift page_key name : String) (ts : PDateTime)
    (is_cover : Bool) : Ledgers :=
  let ls1 := init_page ls shift page_key
  if is_cover then putCover ls1 shift page_key name ts else putUser ls1 shift page_key name ts

/-- Model of `clear_all_shifts` from clockinbot.py: `clock_ins[s].clear()` for each shift. -/
def clear_all_shifts (ls : Ledgers) : Ledgers := ls.map (fun p => (p.1, []))

/-- One row of the `attendance_clockins` table, keyed by
`(attendance_day, shift, page_key, user_name, is_cover)`. -/
structure DBRec where
  day : PDate
  shift : String
  page_key : String
  user_name : String
  is_cover : Bool
  ph_ts : PDateTime
deriving DecidableEq

/-- Model of `db_upsert`: `INSERT ... ON CONFLICT ... DO UPDATE SET ph_ts = EXCLUDED.ph_ts`.
(The caller guards on `DB_ENABLED`.) -/
def db_upsert : List DBRec → DBRec → List DBRec
  | [], r => [r]
  | q :: rest, r =>
    if q.day = r.day ∧ q.shift = r.shift ∧ q.page_key = r.page_key ∧
        q.user_name = r.user_name ∧ q.is_cover = r.is_cover
    then { q with ph_ts := r.ph_ts } :: rest
    else q :: db_upsert rest r

/-- The whole engine state: the active day, the in-memory ledger, the
durable store contents, whether the store is available (`DB_ENABLED`),
and `BOT_START_TIME` (converted to PH). -/
structure BotState where
  activeDay : PDate
  ledgers : Ledgers
  db : List DBRec
  dbEnabled : Bool
  botStart : PDateTime
deriving DecidableEq

/-- One row of `db_load_day`'s loading loop: skip unknown shifts and
pages not in the catalog, else `init_page` and set the user/cover stamp. -/
def loadRow (ls : Ledgers) (r : DBRec) : Ledgers :=
  if (dget ls r.shift).isNone then ls
  else if (dget EXPECTED_PAGES r.page_key).isNone then ls
  else
    let ls1 := init_page ls r.shift r.page_key
    if r.is_cover then putCover ls1 r.shift r.page_key r.user_name r.ph_ts
    else putUser ls1 r.shift r.page_key r.user_name r.ph_ts

/-- Model of `db_load_day` from clockinbot.py.  When the store is disabled it
returns immediately — BEFORE `clear_all_shifts()` — leaving the ledger
untouched; when enabled it clears every shift and replays the stored
rows of `att_day`. -/
def db_load_day (st : BotState) (att_day : PDate) : BotState :=
  if ¬ st.dbEnabled then st
  else
    { st with ledgers :=
        ((st.db.filter (fun r => r.day = att_day)).foldl loadRow
          (clear_all_shifts st.ledgers)) }

/-- An inbound text message: raw text, sender display name
(`from_user.full_name`), and `message.date` already converted to PH time. -/
structure Msg where
  text : String
  name : String
  phTime : PDateTime
deriving DecidableEq

/-- Python `needle in haystack` on character lists. -/
def leadsWith : List Char → List Char → Bool
  | [], _ => true
  | _ :: _, [] => false
  | a :: as, b :: bs => a = b ∧ leadsWith as bs

def containsSub (needle : List Char) : List Char → Bool
  | [] => needle.isEmpty
  | c :: rest => leadsWith needle (c :: rest) ∨ containsSub needle rest

def pad2 (n : Nat) : String := if n < 10 then "0" ++ toString n else toString n

/-- Python `strftime('%I:%M %p')`. -/
def fmtIMp (t : PTime) : String :=
  pad2 ((t.hour + 11) % 12 + 1) ++ ":" ++ pad2 t.minute ++
    (if t.hour < 12 then " AM" else " PM")

/-- The confirmation reply of `handle_message` (source literals kept as
they appear in the file, mojibake included). -/
def successReply (page_key shift name : String) (ts : PDateTime) : String :=
  "‚úÖ *" ++ ((dget EXPECTED_PAGES page_key).getD "") ++ "* clocked in (" ++ shift ++ ")\n"
    ++ fmtIMp ts.time ++ " PH\nby " ++ name

/-- Model of `handle_message` from clockinbot.py, as a state transition returning
the new state and the reply sent (if any).  In order: empty text and
pre-start guards, the raw-substring shift-tag pre-filter, the parser,
the unknown-page branch (reply only when a suggestion exists), the day
rollover (`ACTIVE_DAY` update + `db_load_day`), the ledger upsert, the
store upsert, the confirmation reply. -/
def handle_message (st : BotState) (m : Msg) : BotState × Option String :=
  if m.text = "" then (st, none)
  else if dtLtB m.phTime st.botStart then (st, none)
  else if ¬ SHIFT_TAGS.any (fun p => containsSub p.1.data (asciiLower m.text).data) then
    (st, none)
  else
    match parse_clock_in m.text with
    | (false, _, _) => (st, none)
    | (true, page_key, shift) =>
      if (dget EXPECTED_PAGES page_key).isNone then
        match suggest_page page_key with
        | some s => (st, some ("‚ùó Page not recognized.\nDid you mean: #" ++ s))
        | none => (st, none)
      else
        let att_day := attendance_day_for m.phTime
        let st1 := if att_day ≠ st.activeDay
          then db_load_day { st with activeDay := att_day } att_day else st
        let st2 := { st1 with
          ledgers := recordClockIn st1.ledgers shift page_key m.name m.phTime false }
        let st3 := if st2.dbEnabled
          then { st2 with
            db := db_upsert st2.db ⟨st2.activeDay, shift, page_key, m.name, false, m.phTime⟩ }
          else st2
        (st3, some (successReply page_key shift m.name m.phTime))

/-! ## Concrete states and messages for the claim instances -/

def st_base : BotState :=
  ⟨⟨2026, 10, 10⟩, initLedgers, [], false, ⟨⟨2026, 1, 1⟩, ⟨0, 0, 0⟩⟩⟩

def msgA : Msg := ⟨"CLOCK IN\n#clockinprime\n#islafree", "Alice", ⟨⟨2026, 10, 10⟩, ⟨9, 0, 0⟩⟩⟩

def msgB : Msg := ⟨"CLOCK IN\n#clockinprime\n#alannapaid", "Bob", ⟨⟨2026, 10, 11⟩, ⟨9, 0, 0⟩⟩⟩

def msgQ : Msg := ⟨"CLOCK IN\n#clockinprime\n#qqqq", "Carol", ⟨⟨2026, 10, 10⟩, ⟨9, 0, 0⟩⟩⟩

def msgF : Msg := ⟨"CLOCK IN\n#clock in prime\n#islafree", "Dave", ⟨⟨2026, 10, 10⟩, ⟨9, 0, 0⟩⟩⟩

set_option maxRecDepth 10000 in
/-- C1: a concrete two-event run across a day boundary.  Memory-only
(`DB_ENABLED = False`, first block): after Alice clocks in `#islafree`
on day 2026-10-10 and Bob clocks in `#alannapaid` on day 2026-10-11, the
transition sets the active day but `db_load_day` returns before
`clear_all_shifts`, so day 10-10's `islafree` entry is still in the
ledger next to day 10-11's entry — the snapshot does NOT contain only
the new day's entries.  With the store enabled (second block) the same
two events leave exactly the new day's entry in memory and both days'
rows independently in the store, which is the behaviour the claim
describes. -/
theorem rollover_day_transition_run :
    (handle_message (handle_message st_base msgA).1 msgB).1.activeDay = ⟨2026, 10, 11⟩ ∧
    dget (pagesOf (handle_message (handle_message st_base msgA).1 msgB).1.ledgers "prime")
        "islafree" = some ⟨[("Alice", ⟨⟨2026, 10, 10⟩, ⟨9, 0, 0⟩⟩)], []⟩ ∧
    dget (pagesOf (handle_message (handle_message st_base msgA).1 msgB).1.ledgers "prime")
        "alannapaid" = some ⟨[("Bob", ⟨⟨2026, 10, 11⟩, ⟨9, 0, 0⟩⟩)], []⟩ ∧
    pagesOf (handle_message
        (handle_message { st_base with dbEnabled := true } msgA).1 msgB).1.ledgers "prime" =
      [("alannapaid", ⟨[("Bob", ⟨⟨2026, 10, 11⟩, ⟨9, 0, 0⟩⟩)], []⟩)] ∧
    (handle_message (handle_message { st_base with dbEnabled := true } msgA).1 msgB).1.db =
      [⟨⟨2026, 10, 10⟩, "prime", "islafree", "Alice", false, ⟨⟨2026, 10, 10⟩, ⟨9, 0, 0⟩⟩⟩,
       ⟨⟨2026, 10, 11⟩, "prime", "alannapaid", "Bob", false, ⟨⟨2026, 10, 11⟩, ⟨9, 0, 0⟩⟩⟩] := by
  decide

/-- C2 (amended): for a parsed clock-in whose page key is not in the
catalog, no event is recorded (the state is unchanged) and the reply is
the "did you mean" message when some catalog key clears the similarity
threshold, and NO reply at all otherwise. -/
theorem handle_message_unknown_page (st : BotState) (m : Msg) (page_key shift : String)
    (h0 : m.text ≠ "")
    (h1 : dtLtB m.phTime st.botStart = false)
    (h2 : (SHIFT_TAGS.any (fun p => containsSub p.1.data (asciiLower m.text).data)) = true)
    (h3 : parse_clock_in m.text = (true, page_key, shift))
    (h4 : dget EXPECTED_PAGES page_key = none) :
    handle_message st m =
      (st, (suggest_page page_key).map
        (fun s => "‚ùó Page not recognized.\nDid you mean: #" ++ s)) := by
  unfold handle_message
  rw [if_neg h0, if_neg (by simp [h1]), if_neg (by simp [h2]), h3]
  dsimp only
  rw [if_pos (by simp [h4])]
  cases hs : suggest_page page_key <;> simp

set_option maxRecDepth 10000 in
/-- Witness for C2's amended claim at a concrete unmatchable page key. -/
theorem handle_message_unknown_page_witness :
    handle_message st_base msgQ =
      (st_base, (suggest_page "qqqq").map
        (fun s => "‚ùó Page not recognized.\nDid you mean: #" ++ s)) :=
  handle_message_unknown_page st_base msgQ "qqqq" "prime" (by decide) (by decide)
    (by decide) (by decide) (by decide)

set_option maxRecDepth 10000 in
/-- C2 counterexample: `#qqqq` is unknown and no catalog key clears the
0.7 cutoff, and the handler sends NO reply at all (and records nothing)
— the claim's "plain not-recognized message" does not exist. -/
theorem handle_message_unknown_page_counterexample :
    parse_clock_in "CLOCK IN\n#clockinprime\n#qqqq" = (true, "qqqq", "prime") ∧
    dget EXPECTED_PAGES "qqqq" = none ∧
    suggest_page "qqqq" = none ∧
    handle_message st_base msgQ = (st_base, none) := by
  decide

/-- C10: a message whose lowered raw text contains none of the literal
shift-tag substrings is dropped before parsing: no state change, no
reply — even for `"CLOCK IN\n#clock in prime\n#islafree"`, which the
parser itself accepts (the filler spaces normalize away in the parser
but defeat the raw substring pre-filter). -/
theorem handle_message_prefilter :
    (∀ (st : BotState) (m : Msg),
      (∀ p ∈ SHIFT_TAGS, containsSub p.1.data (asciiLower m.text).data = false) →
      handle_message st m = (st, none)) ∧
    parse_clock_in "CLOCK IN\n#clock in prime\n#islafree" = (true, "islafree", "prime") ∧
    (∀ p ∈ SHIFT_TAGS,
      containsSub p.1.data (asciiLower "CLOCK IN\n#clock in prime\n#islafree").data = false) := by
  refine ⟨fun st m h => ?_, by decide, by decide⟩
  unfold handle_message
  by_cases h0 : m.text = ""
  · rw [if_pos h0]
  · rw [if_neg h0]
    by_cases h1 : dtLtB m.phTime st.botStart = true
    · rw [if_pos h1]
    · rw [if_neg h1]
      have hany : (SHIFT_TAGS.any
          (fun p => containsSub p.1.data (asciiLower m.text).data)) = false := by
        rw [List.any_eq_false]
        intro p hp
        simp [h p hp]
      rw [if_pos (by simp [hany])]

/-- Witness for C10: the pre-filter drops the filler-spaced shift tag
message without reply or state change. -/
theorem handle_message_prefilter_witness :
    handle_message st_base msgF = (st_base, none) :=
  handle_message_prefilter.1 st_base msgF (by decide)

/-! ## Ledger idempotence (C7) -/

/-- Repeated recording: `k` successive clock-ins of the same name for the same page of the
prime shift, starting from the empty ledger, with timestamps `f 0`,
`f 1`, ... -/
def recordN (page name : String) (f : Nat → PDateTime) : Nat → Ledgers
  | 0 => initLedgers
  | k + 1 => recordClockIn (recordN page name f k) "prime" page name (f k) false

theorem recordN_shape (page name : String) (f : Nat → PDateTime) :
    ∀ k, recordN page name f (k + 1) =
      [("prime", [(page, ⟨[(name, f k)], []⟩)]), ("midshift", []), ("closing", [])]
  | 0 => by
    show recordClockIn initLedgers "prime" page name (f 0) false = _
    simp [recordClockIn, init_page, putUser, dget, dset, initLedgers]
  | k + 1 => by
    show recordClockIn (recordN page name f (k + 1)) "prime" page name (f (k + 1)) false = _
    rw [recordN_shape page name f k]
    simp [recordClockIn, init_page, putUser, dget, dset]

/-- C7: re-recording a name that already has an entry in `users`
overwrites the timestamp in place (same map size, new stamp), and
recording the same name `k ≥ 1` times from the empty ledger leaves a
user count of exactly 1, holding the last timestamp. -/
theorem record_clock_in_idempotent :
    (∀ (ls : Ledgers) (shift page name : String) (ts : PDateTime)
        (pages : PageMap) (e : Entry),
      dget ls shift = some pages → dget pages page = some e →
      (dget e.users name).isSome →
      dget (pagesOf (recordClockIn ls shift page name ts false) shift) page =
        some { e with users := dset e.users name ts } ∧
      (dset e.users name ts).length = e.users.length ∧
      dget (dset e.users name ts) name = some ts) ∧
    (∀ (page name : String) (f : Nat → PDateTime) (k : Nat), 1 ≤ k →
      dget (pagesOf (recordN page name f k) "prime") page =
        some ⟨[(name, f (k - 1))], []⟩ ∧
      ([(name, f (k - 1))] : List (String × PDateTime)).length = 1) := by
  constructor
  · intro ls shift page name ts pages e hls hpg hname
    have hinit : init_page ls shift page = ls := by
      unfold init_page
      rw [hls]
      dsimp only
      rw [hpg]
      simp
    have hput : putUser ls shift page name ts =
        dset ls shift (dset pages page { e with users := dset e.users name ts }) := by
      unfold putUser
      rw [hls]
      dsimp only
      rw [hpg]
    refine ⟨?_, dset_length_of_mem e.users name ts hname, dget_dset_self e.users name ts⟩
    unfold recordClockIn
    rw [if_neg (by simp), hinit, hput]
    unfold pagesOf
    rw [dget_dset_self, Option.getD_some, dget_dset_self]
  · intro page name f k hk
    obtain ⟨j, rfl⟩ : ∃ j, k = j + 1 := ⟨k - 1, by omega⟩
    rw [recordN_shape page name f j]
    refine ⟨?_, rfl⟩
    simp only [Nat.add_sub_cancel]
    simp [pagesOf, dget, dset]

/-- Witness for C7: Alice clocking in `#islafree` three times leaves one
entry with the third timestamp, and re-recording over a concrete
existing entry keeps its size. -/
theorem record_clock_in_idempotent_witness :
    (dget (pagesOf (recordN "islafree" "Alice"
        (fun i => ⟨⟨2026, 10, 10⟩, ⟨9, 0, i⟩⟩) 3) "prime") "islafree" =
      some ⟨[("Alice", ⟨⟨2026, 10, 10⟩, ⟨9, 0, 2⟩⟩)], []⟩ ∧
      ([("Alice", (⟨⟨2026, 10, 10⟩, ⟨9, 0, 2⟩⟩ : PDateTime))] :
        List (String × PDateTime)).length = 1) ∧
    dget (pagesOf (recordClockIn
        [("prime", [("islafree", ⟨[("Alice", ⟨⟨2026, 10, 10⟩, ⟨7, 0, 0⟩⟩)], []⟩)])]
        "prime" "islafree" "Alice" ⟨⟨2026, 10, 10⟩, ⟨9, 0, 0⟩⟩ false) "prime") "islafree" =
      some ⟨dset [("Alice", ⟨⟨2026, 10, 10⟩, ⟨7, 0, 0⟩⟩)] "Alice" ⟨⟨2026, 10, 10⟩, ⟨9, 0, 0⟩⟩,
        []⟩ :=
  ⟨record_clock_in_idempotent.2 "islafree" "Alice"
      (fun i => ⟨⟨2026, 10, 10⟩, ⟨9, 0, i⟩⟩) 3 (by decide),
   (record_clock_in_idempotent.1
      [("prime", [("islafree", ⟨[("Alice", ⟨⟨2026, 10, 10⟩, ⟨7, 0, 0⟩⟩)], []⟩)])]
      "prime" "islafree" "Alice" ⟨⟨2026, 10, 10⟩, ⟨9, 0, 0⟩⟩
      [("islafree", ⟨[("Alice", ⟨⟨2026, 10, 10⟩, ⟨7, 0, 0⟩⟩)], []⟩)]
      ⟨[("Alice", ⟨⟨2026, 10, 10⟩, ⟨7, 0, 0⟩⟩)], []⟩
      (by decide) (by decide) (by decide)).1⟩

/-! ## The late report (C6) -/

/-- Model of `SHIFT_CUTOFFS` from clockinbot.py. -/
def SHIFT_CUTOFFS : List (String × PTime) :=
  [("prime", ⟨8, 0, 0⟩), ("midshift", ⟨16, 0, 0⟩), ("closing", ⟨0, 0, 0⟩)]

/-- One step of the `users` loop of `generate_late_status`:
`if t.time() > cutoff: late.append(f"- {u} ({t.strftime('%I:%M %p')})")`. -/
def lateStepU (cutoff : PTime) (acc : List String) (p : String × PDateTime) : List String :=
  if timeLtB cutoff p.2.time then acc ++ ["- " ++ p.1 ++ " (" ++ fmtIMp p.2.time ++ ")"]
  else acc

/-- One step of the `covers` loop (same test, `"(cover, ...)"` rendering). -/
def lateStepC (cutoff : PTime) (acc : List String) (p : String × PDateTime) : List String :=
  if timeLtB cutoff p.2.time then
    acc ++ ["- " ++ p.1 ++ " (cover, " ++ fmtIMp p.2.time ++ ")"]
  else acc

/-- The `late` list accumulated for one page: users first, then covers. -/
def pageLateList (e : Entry) (cutoff : PTime) : List String :=
  e.covers.foldl (lateStepC cutoff) (e.users.foldl (lateStepU cutoff) [])

/-- The block contributed by one catalog page: skipped when the page has
no ledger entry (`key not in clock_ins[shift]`) or no late person. -/
def blockOf (pages : PageMap) (cutoff : PTime) (kv : String × String) : Option String :=
  match dget pages kv.1 with
  | none => none
  | some e =>
    if pageLateList e cutoff = [] then none
    else some ("*" ++ kv.2 ++ "*\n" ++ String.intercalate "\n" (pageLateList e cutoff))

def blockStep (pages : PageMap) (cutoff : PTime) (acc : List String) (kv : String × String) :
    List String :=
  match blockOf pages cutoff kv with
  | none => acc
  | some b => acc ++ [b]

/-- The `blocks` list of `generate_late_status`, in catalog order. -/
def lateBlocks (pages : PageMap) (cutoff : PTime) : List String :=
  EXPECTED_PAGES.foldl (blockStep pages cutoff) []

/-- Model of `generate_late_status` from clockinbot.py (`none` models the
`KeyError` on a shift outside the two dictionaries, unreachable from the
commands). -/
def generate_late_status (shift : String) (ls : Ledgers) : Option String :=
  match dget SHIFT_CUTOFFS shift, dget ls shift with
  | some cutoff, some pages =>
    some (if lateBlocks pages cutoff = []
      then "‚è∞ *" ++ asciiUpper shift ++ " LATE*\n\nNo late clock-ins üéâ"
      else "‚è∞ *" ++ asciiUpper shift ++ " LATE*\n\n" ++
        String.intercalate "\n\n" (lateBlocks pages cutoff))
  | _, _ => none

theorem foldl_lateStepU (cutoff : PTime) :
    ∀ (l : List (String × PDateTime)) (acc : List String),
      l.foldl (lateStepU cutoff) acc =
        acc ++ (l.filter (fun p => timeLtB cutoff p.2.time)).map
          (fun p => "- " ++ p.1 ++ " (" ++ fmtIMp p.2.time ++ ")")
  | [], acc => by simp
  | x :: xs, acc => by
    rw [List.foldl_cons, List.filter_cons]
    by_cases hx : timeLtB cutoff x.2.time
    · have hstep : lateStepU cutoff acc x =
          acc ++ ["- " ++ x.1 ++ " (" ++ fmtIMp x.2.time ++ ")"] := by
        unfold lateStepU
        rw [if_pos hx]
      rw [hstep, if_pos hx,
        foldl_lateStepU cutoff xs (acc ++ ["- " ++ x.1 ++ " (" ++ fmtIMp x.2.time ++ ")"])]
      simp
    · have hstep : lateStepU cutoff acc x = acc := by
        unfold lateStepU
        rw [if_neg hx]
      rw [hstep, if_neg hx, foldl_lateStepU cutoff xs acc]

theorem foldl_lateStepC (cutoff : PTime) :
    ∀ (l : List (String × PDateTime)) (acc : List String),
      l.foldl (lateStepC cutoff) acc =
        acc ++ (l.filter (fun p => timeLtB cutoff p.2.time)).map
          (fun p => "- " ++ p.1 ++ " (cover, " ++ fmtIMp p.2.time ++ ")")
  | [], acc => by simp
  | x :: xs, acc => by
    rw [List.foldl_cons, List.filter_cons]
    by_cases hx : timeLtB cutoff x.2.time
    · have hstep : lateStepC cutoff acc x =
          acc ++ ["- " ++ x.1 ++ " (cover, " ++ fmtIMp x.2.time ++ ")"] := by
        unfold lateStepC
        rw [if_pos hx]
      rw [hstep, if_pos hx,
        foldl_lateStepC cutoff xs
          (acc ++ ["- " ++ x.1 ++ " (cover, " ++ fmtIMp x.2.time ++ ")"])]
      simp
    · have hstep : lateStepC cutoff acc x = acc := by
        unfold lateStepC
        rw [if_neg hx]
      rw [hstep, if_neg hx, foldl_lateStepC cutoff xs acc]

theorem foldl_blockStep (pages : PageMap) (cutoff : PTime) :
    ∀ (l : List (String × String)) (acc : List String),
      l.foldl (blockStep pages cutoff) acc = acc ++ l.filterMap (blockOf pages cutoff)
  | [], acc => by simp
  | x :: xs, acc => by
    rw [List.foldl_cons, List.filterMap_cons]
    rcases hx : blockOf pages cutoff x with _ | y
    · have hstep : blockStep pages cutoff acc x = acc := by
        unfold blockStep
        rw [hx]
      rw [hstep, foldl_blockStep pages cutoff xs acc]
    · have hstep : blockStep pages cutoff acc x = acc ++ [y] := by
        unfold blockStep
        rw [hx]
      rw [hstep, foldl_blockStep pages cutoff xs (acc ++ [y])]
      simp

/-- C6: for every shift ledger, the late report lists, per page with an
entry, exactly the users and covers whose time of day is strictly after
the shift cutoff (conjunct 1, with the two loops rendered as
filter-then-map); the blocks are exactly the catalog pages that have an
entry with at least one late person (conjuncts 2 and 3: a page with no
late people contributes nothing); when no page has a late person the
report is the fixed "no late clock-ins" message (conjunct 4); and at
prime's 08:00 cutoff a clock-in at exactly 08:00:00 is not late while
08:00:01 is (conjuncts 5 and 6). -/
theorem generate_late_status_spec :
    (∀ (e : Entry) (cutoff : PTime),
      pageLateList e cutoff =
        ((e.users.filter (fun p => timeLtB cutoff p.2.time)).map
          (fun p => "- " ++ p.1 ++ " (" ++ fmtIMp p.2.time ++ ")")) ++
        ((e.covers.filter (fun p => timeLtB cutoff p.2.time)).map
          (fun p => "- " ++ p.1 ++ " (cover, " ++ fmtIMp p.2.time ++ ")"))) ∧
    (∀ (pages : PageMap) (cutoff : PTime),
      lateBlocks pages cutoff = EXPECTED_PAGES.filterMap (blockOf pages cutoff)) ∧
    (∀ (pages : PageMap) (cutoff : PTime),
      lateBlocks pages cutoff = [] ↔
        ∀ kv ∈ EXPECTED_PAGES, ∀ e, dget pages kv.1 = some e →
          pageLateList e cutoff = []) ∧
    (∀ (ls : Ledgers) (pages : PageMap), dget ls "prime" = some pages →
      generate_late_status "prime" ls =
        some (if lateBlocks pages ⟨8, 0, 0⟩ = []
          then "‚è∞ *PRIME LATE*\n\nNo late clock-ins üéâ"
          else "‚è∞ *PRIME LATE*\n\n" ++
            String.intercalate "\n\n" (lateBlocks pages ⟨8, 0, 0⟩))) ∧
    pageLateList ⟨[("u", ⟨⟨2026, 10, 10⟩, ⟨8, 0, 0⟩⟩)], []⟩ ⟨8, 0, 0⟩ = [] ∧
    pageLateList ⟨[("u", ⟨⟨2026, 10, 10⟩, ⟨8, 0, 1⟩⟩)], []⟩ ⟨8, 0, 0⟩ = ["- u (08:00 AM)"] := by
  refine ⟨fun e cutoff => ?_, fun pages cutoff => ?_, fun pages cutoff => ?_,
    fun ls pages hls => ?_, by decide, by decide⟩
  · unfold pageLateList
    rw [foldl_lateStepU cutoff e.users [], List.nil_append, foldl_lateStepC cutoff e.covers]
  · have h := foldl_blockStep pages cutoff EXPECTED_PAGES []
    rw [List.nil_append] at h
    exact h
  · unfold lateBlocks
    rw [foldl_blockStep pages cutoff EXPECTED_PAGES [],
      List.nil_append, List.filterMap_eq_nil_iff]
    constructor
    · intro h kv hkv e he
      have := h kv hkv
      unfold blockOf at this
      rw [he] at this
      dsimp only at this
      by_contra hne
      rw [if_neg hne] at this
      exact Option.some_ne_none _ this
    · intro h kv hkv
      unfold blockOf
      rcases hd : dget pages kv.1 with _ | e
      · rfl
      · dsimp only
        rw [if_pos (h kv hkv e hd)]
  · unfold generate_late_status
    rw [hls]
    rw [show dget SHIFT_CUTOFFS "prime" = some ⟨8, 0, 0⟩ from rfl]
    rw [show ("‚è∞ *" ++ asciiUpper "prime" ++ " LATE*\n\nNo late clock-ins üéâ" : String) =
        "‚è∞ *PRIME LATE*\n\nNo late clock-ins üéâ" from by decide,
      show ("‚è∞ *" ++ asciiUpper "prime" ++ " LATE*\n\n" : String) =
        "‚è∞ *PRIME LATE*\n\n" from by decide]

/-- Witness for C6 at a concrete ledger: one on-time and one late
clock-in for Isla Free on prime. -/
theorem generate_late_status_spec_witness :
    generate_late_status "prime"
        [("prime", [("islafree",
          ⟨[("Alice", ⟨⟨2026, 10, 10⟩, ⟨8, 0, 0⟩⟩), ("Bob", ⟨⟨2026, 10, 10⟩, ⟨9, 15, 0⟩⟩)],
            []⟩)])] =
      some (if lateBlocks [("islafree",
          ⟨[("Alice", ⟨⟨2026, 10, 10⟩, ⟨8, 0, 0⟩⟩), ("Bob", ⟨⟨2026, 10, 10⟩, ⟨9, 15, 0⟩⟩)],
            []⟩)] ⟨8, 0, 0⟩ = []
        then "‚è∞ *PRIME LATE*\n\nNo late clock-ins üéâ"
        else "‚è∞ *PRIME LATE*\n\n" ++
          String.intercalate "\n\n" (lateBlocks [("islafree",
            ⟨[("Alice", ⟨⟨2026, 10, 10⟩, ⟨8, 0, 0⟩⟩), ("Bob", ⟨⟨2026, 10, 10⟩, ⟨9, 15, 0⟩⟩)],
              []⟩)] ⟨8, 0, 0⟩)) :=
  generate_late_status_spec.2.2.2.1
    [("prime", [("islafree",
      ⟨[("Alice", ⟨⟨2026, 10, 10⟩, ⟨8, 0, 0⟩⟩), ("Bob", ⟨⟨2026, 10, 10⟩, ⟨9, 15, 0⟩⟩)],
        []⟩)])]
    [("islafree",
      ⟨[("Alice", ⟨⟨2026, 10, 10⟩, ⟨8, 0, 0⟩⟩), ("Bob", ⟨⟨2026, 10, 10⟩, ⟨9, 15, 0⟩⟩)],
        []⟩)]
    (by decide)

/-! ## Status tables and pagination (C8) -/

/-- Model of `clamp` from clockinbot.py (used with Python ints; page numbers may
be negative, so the model uses `Int`). -/
def clamp (n lo hi : Int) : Int := max lo (min hi n)

/-- Model of `PAGE_SIZE = 12`. -/
def PAGE_SIZE : Nat := 12

/-- A table row `(tag, label, users, covers, status)`. -/
abbrev Row := String × String × Nat × Nat × String

/-- Model of `build_shift_rows` from clockinbot.py (`clock_ins[shift]` read
through `pagesOf`, `.get(key, {}).get(..., {})` through `getD`). -/
def build_shift_rows (ls : Ledgers) (shift : String) (missing_only : Bool) : List Row :=
  EXPECTED_PAGES.filterMap (fun kv =>
    let e := (dget (pagesOf ls shift) kv.1).getD ⟨[], []⟩
    let u := e.users.length
    let c := e.covers.length
    let missing : Bool := u == 0 && c == 0
    if missing_only && !missing then none
    else some ("#" ++ kv.1, kv.2, u, c, if missing then "‚ùå" else "‚úÖ"))

def total_pages_of (total page_size : Nat) : Nat :=
  max 1 ((total + page_size - 1) / page_size)

def padTo (s : String) (w : Nat) : String :=
  s ++ String.mk (List.replicate (w - s.length) ' ')

/-- Python `f"{n:^2}"` for a number: center in width 2 (a one-digit
number gets one trailing space). -/
def ctr2 (n : Nat) : String :=
  if (toString n).length ≥ 2 then toString n else toString n ++ " "

def rowLine (r : Row) : String :=
  padTo ⟨r.1.data.take 15⟩ 15 ++ " | " ++ padTo ⟨r.2.1.data.take 24⟩ 24 ++ " | " ++
    ctr2 r.2.2.1 ++ " | " ++ ctr2 r.2.2.2.1 ++ " | " ++ r.2.2.2.2 ++ "\n"

/-- The body of `render_shift_table` after the page number has been
clamped (the source computes `page = clamp(page, 1, total_pages)` first
and only ever uses the clamped value). -/
def renderAt (rows : List Row) (title : String) (p : Int) (page_size : Nat) : String :=
  let total := rows.length
  let tp := total_pages_of total page_size
  let start := (p - 1).toNat * page_size
  let en := min (start + page_size) total
  let shown := (rows.drop start).take (en - start)
  "üìä *" ++ title ++ "*\n_Page " ++ toString p ++ "/" ++ toString tp ++
    " ‚Ä¢ Rows " ++ toString (start + 1) ++ "-" ++ toString en ++ " of " ++ toString total ++
    "_\n\n```\n" ++
    "Tag              | Page                     | üë• | üü° | St\n" ++
    "-----------------+--------------------------+----+----+---\n" ++
    String.join (shown.map rowLine) ++ "```\n"

/-- Model of `render_shift_table` from clockinbot.py. -/
def render_shift_table (rows : List Row) (title : String) (page : Int) (page_size : Nat) :
    String :=
  renderAt rows title (clamp page 1 (Int.ofNat (total_pages_of rows.length page_size)))
    page_size

/-- Model of `generate_shift_table_page` from clockinbot.py. -/
def generate_shift_table_page (ls : Ledgers) (shift : String) (page : Int)
    (page_size : Nat) (missing_only : Bool) : String :=
  render_shift_table (build_shift_rows ls shift missing_only)
    (if missing_only then asciiUpper shift ++ " SHIFT ‚Äî MISSING PAGES"
     else asciiUpper shift ++ " SHIFT ‚Äî CLOCK-IN STATUS")
    page page_size

/-- Python `int(str)` (ASCII digits, optional sign, single underscores
between digits, surrounding whitespace). -/
def pyDigitsGo (acc : Nat) : List Char → Option Nat
  | [] => some acc
  | '_' :: c :: cs => if c.isDigit then pyDigitsGo (acc * 10 + (c.toNat - 48)) cs else none
  | '_' :: [] => none
  | c :: cs => if c.isDigit then pyDigitsGo (acc * 10 + (c.toNat - 48)) cs else none

def pyNatParse : List Char → Option Nat
  | [] => none
  | c :: cs => if c.isDigit then pyDigitsGo (c.toNat - 48) cs else none

def pyParseInt (s : String) : Option Int :=
  match pyStrip s.data with
  | '+' :: rest => (pyNatParse rest).map (fun n => (n : Int))
  | '-' :: rest => (pyNatParse rest).map (fun n => -(n : Int))
  | rest => (pyNatParse rest).map (fun n => (n : Int))

/-- Model of `_get_page_arg` from clockinbot.py: no argument or an unparsable
argument yields page 1 (`int(...)` failure is caught). -/
def _get_page_arg (args : List String) : Int :=
  match args with
  | [] => 1
  | a :: _ => (pyParseInt a).getD 1

theorem clamp_idem (n lo hi : Int) (h : lo ≤ hi) :
    clamp (clamp n lo hi) lo hi = clamp n lo hi := by
  unfold clamp
  rcases le_total n lo with h1 | h1 <;> rcases le_total n hi with h2 | h2 <;>
    simp [max_def, min_def] <;> split_ifs <;> omega

/-- C8: the rendered status table always uses a page number clamped into
`[1, totalPages]` with `totalPages ≥ 1` even for an empty row list
(rendering any requested page, however negative or large, equals
rendering the clamped page), and a missing or unparsable page argument
is treated as page 1; every function involved is total. -/
theorem render_shift_table_clamps :
    (∀ (rows : List Row) (title : String) (page : Int) (page_size : Nat),
      1 ≤ page_size →
      1 ≤ total_pages_of rows.length page_size ∧
      1 ≤ clamp page 1 (Int.ofNat (total_pages_of rows.length page_size)) ∧
      clamp page 1 (Int.ofNat (total_pages_of rows.length page_size)) ≤
        Int.ofNat (total_pages_of rows.length page_size) ∧
      render_shift_table rows title page page_size =
        render_shift_table rows title
          (clamp page 1 (Int.ofNat (total_pages_of rows.length page_size))) page_size) ∧
    (∀ (a : String) (rest : List String), pyParseInt a = none →
      _get_page_arg (a :: rest) = 1) ∧
    _get_page_arg [] = 1 := by
  refine ⟨fun rows title page psize hps => ?_, fun a rest ha => ?_, rfl⟩
  · have h1 : 1 ≤ total_pages_of rows.length psize := le_max_left 1 _
    have h1i : (1 : Int) ≤ Int.ofNat (total_pages_of rows.length psize) :=
      Int.ofNat_le.mpr h1
    refine ⟨h1, le_max_left 1 _, max_le h1i (min_le_left _ _), ?_⟩
    unfold render_shift_table
    rw [clamp_idem _ _ _ h1i]
  · unfold _get_page_arg
    dsimp only
    rw [ha]
    rfl

/-- Witness for C8 at page −5 of an empty table and the argument "abc". -/
theorem render_shift_table_clamps_witness :
    (1 ≤ total_pages_of ([] : List Row).length 12 ∧
     1 ≤ clamp (-5) 1 (Int.ofNat (total_pages_of ([] : List Row).length 12)) ∧
     clamp (-5) 1 (Int.ofNat (total_pages_of ([] : List Row).length 12)) ≤
       Int.ofNat (total_pages_of ([] : List Row).length 12) ∧
     render_shift_table [] "T" (-5) 12 =
       render_shift_table [] "T"
         (clamp (-5) 1 (Int.ofNat (total_pages_of ([] : List Row).length 12))) 12) ∧
    _get_page_arg ["abc"] = 1 :=
  ⟨render_shift_table_clamps.1 [] "T" (-5) 12 (by decide),
   render_shift_table_clamps.2.1 "abc" [] (by decide)⟩

/-! ## Chunking for Telegram (C3) -/

/-- Python `text.rfind("\n", 0, max_len)` on a prefix already taken:
index of the last newline, `none` for `-1`. -/
def lastNLIdx : List Char → Option Nat
  | [] => none
  | c :: cs =>
    match lastNLIdx cs with
    | some j => some (j + 1)
    | none => if c = '\n' then some 0 else none

/-- The `while len(text) > max_len` loop of `split_for_telegram`;
the fuel is an upper bound on the text length (each iteration strictly
shrinks the text when `max_len ≥ 1`). -/
def splitChunks (max_len : Nat) : Nat → List Char → List (List Char)
  | 0, t => [t]
  | fuel + 1, t =>
    if t.length ≤ max_len then [t]
    else
      t.take ((lastNLIdx (t.take max_len)).getD max_len) ::
        splitChunks max_len fuel
          ((t.drop ((lastNLIdx (t.take max_len)).getD max_len)).dropWhile (fun c => c = '\n'))

/-- Model of `split_for_telegram` from clockinbot.py (`max_len` defaults to 3900
at every call site). -/
def split_for_telegram (text : String) (max_len : Nat) : List String :=
  (splitChunks max_len text.data.length text.data).map (fun l => ⟨l⟩)

theorem linesOf_nil_eq : linesOf [] = [[]] := rfl

theorem linesOf_cons_nl (cs : List Char) : linesOf ('\n' :: cs) = [] :: linesOf cs := by
  conv_lhs => unfold linesOf
  rw [if_pos rfl]

theorem linesOf_cons_of_ne (c : Char) (cs : List Char) (hc : ¬ c = '\n')
    {h : List Char} {rest : List (List Char)} (hcs : linesOf cs = h :: rest) :
    linesOf (c :: cs) = (c :: h) :: rest := by
  conv_lhs => unfold linesOf
  rw [if_neg hc, hcs]

theorem linesOf_append_nl : ∀ a b : List Char,
    linesOf (a ++ '\n' :: b) = linesOf a ++ linesOf b
  | [], b => by
    rw [List.nil_append, linesOf_cons_nl, linesOf_nil_eq]
    rfl
  | c :: cs, b => by
    rw [List.cons_append]
    by_cases hc : c = '\n'
    · subst hc
      rw [linesOf_cons_nl, linesOf_cons_nl, linesOf_append_nl cs b]
      rfl
    · obtain ⟨h, rest, hcs⟩ := List.exists_cons_of_ne_nil (linesOf_ne_nil cs)
      have hcs2 : linesOf (cs ++ '\n' :: b) = h :: (rest ++ linesOf b) := by
        rw [linesOf_append_nl cs b, hcs]
        rfl
      rw [linesOf_cons_of_ne c _ hc hcs2, linesOf_cons_of_ne c cs hc hcs]
      rfl

theorem linesOf_no_nl : ∀ l : List Char, (∀ c ∈ l, ¬ c = '\n') → linesOf l = [l]
  | [], _ => rfl
  | c :: cs, h => by
    rw [linesOf_cons_of_ne c cs (h c (by simp))
      (linesOf_no_nl cs (fun d hd => h d (by simp [hd])))]

theorem linesOf_dropWhile_nl_subset :
    ∀ (l : List Char) (x : List Char),
      x ∈ linesOf (l.dropWhile (fun c => c = '\n')) → x ∈ linesOf l
  | [], x, hx => hx
  | c :: cs, x, hx => by
    by_cases hc : c = '\n'
    · rw [List.dropWhile_cons_of_pos (by simp [hc])] at hx
      have := linesOf_dropWhile_nl_subset cs x hx
      subst hc
      rw [linesOf_cons_nl]
      exact List.mem_cons_of_mem _ this
    · rwa [List.dropWhile_cons_of_neg (by simp [hc])] at hx

theorem lastNLIdx_none : ∀ l : List Char, lastNLIdx l = none → ∀ c ∈ l, ¬ c = '\n'
  | [], _, c, hc => by simp at hc
  | c0 :: cs, h, c, hc => by
    unfold lastNLIdx at h
    rcases hcs : lastNLIdx cs with _ | j
    · rw [hcs] at h
      dsimp only at h
      by_cases hc0 : c0 = '\n'
      · rw [if_pos hc0] at h
        exact absurd h (by simp)
      · rw [if_neg hc0] at h
        rcases List.mem_cons.mp hc with rfl | hmem
        · exact hc0
        · exact lastNLIdx_none cs hcs c hmem
    · rw [hcs] at h
      exact absurd h (by simp)

theorem lastNLIdx_some : ∀ (l : List Char) (j : Nat), lastNLIdx l = some j →
    j < l.length ∧ l.drop j = '\n' :: l.drop (j + 1)
  | [], j, h => by simp [lastNLIdx] at h
  | c :: cs, j, h => by
    unfold lastNLIdx at h
    rcases hcs : lastNLIdx cs with _ | j'
    · rw [hcs] at h
      dsimp only at h
      by_cases hc : c = '\n'
      · rw [if_pos hc] at h
        obtain rfl : (0 : Nat) = j := by simpa using h
        subst hc
        exact ⟨by simp, rfl⟩
      · rw [if_neg hc] at h
        exact absurd h (by simp)
    · rw [hcs] at h
      obtain rfl : j' + 1 = j := by simpa using h
      obtain ⟨hlt, hdrop⟩ := lastNLIdx_some cs j' hcs
      exact ⟨by simpa using Nat.succ_lt_succ hlt, hdrop⟩

theorem drop_of_drop_cons {t : List Char} {j : Nat} {c : Char} {r : List Char}
    (h : t.drop j = c :: r) : t.drop (j + 1) = r := by
  have : t.drop (j + 1) = (t.drop j).drop 1 := by
    rw [List.drop_drop]
  rw [this, h]
  rfl

theorem long_first_line : ∀ (t : List Char) (m : Nat),
    (∀ c ∈ t.take m, ¬ c = '\n') → ∀ c0 r, t.drop m = c0 :: r → ¬ c0 = '\n' →
    ∃ h rest, linesOf t = h :: rest ∧ m + 1 ≤ h.length
  | [], m, _, c0, r, hdrop, _ => by
    rw [List.drop_nil] at hdrop
    exact absurd hdrop (by simp)
  | c :: cs, 0, _, c0, r, hdrop, hc0 => by
    rw [List.drop_zero] at hdrop
    obtain rfl : c = c0 := by simpa using congrArg (fun l => l.headD ' ') hdrop
    obtain ⟨h, rest, hcs⟩ := List.exists_cons_of_ne_nil (linesOf_ne_nil cs)
    exact ⟨c :: h, rest, linesOf_cons_of_ne c cs hc0 hcs, by simp⟩
  | c :: cs, m + 1, htake, c0, r, hdrop, hc0 => by
    have hc : ¬ c = '\n' := htake c (by simp)
    have htake' : ∀ d ∈ cs.take m, ¬ d = '\n' := fun d hd =>
      htake d (by simp [List.take_cons, hd])
    obtain ⟨h, rest, hcs, hlen⟩ :=
      long_first_line cs m htake' c0 r (by simpa using hdrop) hc0
    exact ⟨c :: h, rest, linesOf_cons_of_ne c cs hc hcs,
      by simpa using Nat.succ_le_succ hlen⟩

theorem drop_head_nl_of_window (t : List Char) (m j : Nat) (hj : j < m)
    (hd : (t.take m).drop j = '\n' :: (t.take m).drop (j + 1)) :
    t.drop j = '\n' :: t.drop (j + 1) := by
  rw [List.drop_take, List.drop_take] at hd
  rcases hdj : t.drop j with _ | ⟨c, r⟩
  · rw [hdj] at hd
    simp at hd
  · rw [hdj] at hd
    obtain ⟨k, hk⟩ : ∃ k, m - j = k + 1 := ⟨m - j - 1, by omega⟩
    rw [hk, List.take_succ_cons] at hd
    have hc : c = '\n' := by simpa using congrArg (fun l => l.headD ' ') hd
    rw [hc, drop_of_drop_cons hdj]

theorem window_no_nl_head (max_len : Nat) (t : List Char)
    (hlen : ¬ t.length ≤ max_len)
    (hnonl : ∀ c ∈ t.take max_len, ¬ c = '\n')
    (hyp : ∀ ln ∈ linesOf t, ln.length ≤ max_len) :
    t.drop max_len = '\n' :: t.drop (max_len + 1) := by
  rcases hd : t.drop max_len with _ | ⟨c0, d⟩
  · have h0 : t.length - max_len = 0 := by simpa using congrArg List.length hd
    omega
  · have hc0 : c0 = '\n' := by
      by_contra hc0
      obtain ⟨h, rest, hl, hlh⟩ := long_first_line t max_len hnonl c0 d hd hc0
      have := hyp h (by rw [hl]; exact List.mem_cons_self _ _)
      omega
    rw [hc0, drop_of_drop_cons hd]

theorem length_dropWhile_nl_le : ∀ l : List Char,
    (l.dropWhile (fun c => c = '\n')).length ≤ l.length
  | [] => le_refl _
  | c :: cs => by
    by_cases hc : c = '\n'
    · rw [List.dropWhile_cons_of_pos (by simp [hc])]
      exact Nat.le_succ_of_le (length_dropWhile_nl_le cs)
    · rw [List.dropWhile_cons_of_neg (by simp [hc])]

theorem splitChunks_sound (max_len : Nat) (hml : 1 ≤ max_len) :
    ∀ (fuel : Nat) (t : List Char), t.length ≤ fuel →
      ∀ p ∈ splitChunks max_len fuel t,
        p.length ≤ max_len ∧
        ((∀ ln ∈ linesOf t, ln.length ≤ max_len) →
          ∀ ln ∈ linesOf p, ln ∈ linesOf t) := by
  intro fuel
  induction fuel with
  | zero =>
    intro t ht p hp
    have ht0 : t = [] := List.length_eq_zero.mp (Nat.le_zero.mp ht)
    subst ht0
    obtain rfl : p = [] := by simpa [splitChunks] using hp
    exact ⟨by simp, fun _ ln hln => hln⟩
  | succ fuel ih =>
    intro t ht p hp
    unfold splitChunks at hp
    by_cases hlen : t.length ≤ max_len
    · rw [if_pos hlen] at hp
      obtain rfl : p = t := by simpa using hp
      exact ⟨hlen, fun _ ln hln => hln⟩
    · rw [if_neg hlen] at hp
      rcases hnl : lastNLIdx (t.take max_len) with _ | j
      · -- no newline in the window: the cut is at max_len
        rw [hnl] at hp
        simp only [Option.getD_none] at hp
        have hnonl : ∀ c ∈ t.take max_len, ¬ c = '\n' := lastNLIdx_none _ hnl
        have hrl : ((t.drop max_len).dropWhile (fun c => c = '\n')).length ≤ fuel := by
          have h1 := length_dropWhile_nl_le (t.drop max_len)
          have h2 : (t.drop max_len).length = t.length - max_len := by simp
          omega
        rcases List.mem_cons.mp hp with rfl | hmem
        · refine ⟨by simp, fun hyp ln hln => ?_⟩
          have hhead := window_no_nl_head max_len t hlen hnonl hyp
          have hteq : t = t.take max_len ++ '\n' :: t.drop (max_len + 1) := by
            conv_lhs => rw [← List.take_append_drop max_len t, hhead]
          have hlines : linesOf t =
              linesOf (t.take max_len) ++ linesOf (t.drop (max_len + 1)) := by
            conv_lhs => rw [hteq, linesOf_append_nl]
          rw [hlines]
          exact List.mem_append_left _ hln
        · have ihp := ih ((t.drop max_len).dropWhile (fun c => c = '\n')) hrl p hmem
          refine ⟨ihp.1, fun hyp ln hln => ?_⟩
          have hhead := window_no_nl_head max_len t hlen hnonl hyp
          have hlines : linesOf t =
              linesOf (t.take max_len) ++ linesOf (t.drop (max_len + 1)) := by
            conv_lhs => rw [← List.take_append_drop max_len t, hhead, linesOf_append_nl]
          have hchain : ∀ l2, l2 ∈ linesOf ((t.drop max_len).dropWhile (fun c => c = '\n')) →
              l2 ∈ linesOf t := by
            intro l2 hl2
            rw [hhead, List.dropWhile_cons_of_pos (by simp)] at hl2
            have := linesOf_dropWhile_nl_subset _ _ hl2
            rw [hlines]
            exact List.mem_append_right _ this
          exact hchain ln (ihp.2 (fun l2 hl2 => hyp l2 (hchain l2 hl2)) ln hln)
      · -- the cut is at the last newline of the window
        rw [hnl] at hp
        simp only [Option.getD_some] at hp
        obtain ⟨hjlt, hjdrop⟩ := lastNLIdx_some _ j hnl
        have hjm : j < max_len := by
          have := List.length_take max_len t
          omega
        have hjt : j < t.length := by
          have := List.length_take max_len t
          omega
        have hhead : t.drop j = '\n' :: t.drop (j + 1) :=
          drop_head_nl_of_window t max_len j hjm hjdrop
        have hteq : t = t.take j ++ '\n' :: t.drop (j + 1) := by
          conv_lhs => rw [← List.take_append_drop j t, hhead]
        have hlines : linesOf t = linesOf (t.take j) ++ linesOf (t.drop (j + 1)) := by
          conv_lhs => rw [hteq, linesOf_append_nl]
        have hrl : ((t.drop j).dropWhile (fun c => c = '\n')).length ≤ fuel := by
          rw [hhead, List.dropWhile_cons_of_pos (by simp)]
          have h1 := length_dropWhile_nl_le (t.drop (j + 1))
          have h2 : (t.drop (j + 1)).length = t.length - (j + 1) := by simp
          omega
        have hchain : ∀ l2, l2 ∈ linesOf ((t.drop j).dropWhile (fun c => c = '\n')) →
            l2 ∈ linesOf t := by
          intro l2 hl2
          rw [hhead, List.dropWhile_cons_of_pos (by simp)] at hl2
          have := linesOf_dropWhile_nl_subset _ _ hl2
          rw [hlines]
          exact List.mem_append_right _ this
        rcases List.mem_cons.mp hp with rfl | hmem
        · refine ⟨?_, fun hyp ln hln => ?_⟩
          · have := List.length_take j t
            omega
          · rw [hlines]
            exact List.mem_append_left _ hln
        · have ihp := ih ((t.drop j).dropWhile (fun c => c = '\n')) hrl p hmem
          exact ⟨ihp.1, fun hyp ln hln =>
            hchain ln (ihp.2 (fun l2 hl2 => hyp l2 (hchain l2 hl2)) ln hln)⟩

/-- C3 (amended): every chunk produced by `split_for_telegram` is no
longer than `max_len`; and PROVIDED every line of the input is itself no
longer than `max_len`, chunks break only at line boundaries (every line
of every chunk is a line of the input).  A single line longer than
`max_len` is instead cut at exactly `max_len` (see the counterexample). -/
theorem split_for_telegram_spec (text : String) (max_len : Nat) (p : String)
    (ln : List Char) (hml : 1 ≤ max_len) (hp : p ∈ split_for_telegram text max_len) :
    p.length ≤ max_len ∧
    ((∀ l2 ∈ linesOf text.data, l2.length ≤ max_len) →
      ln ∈ linesOf p.data → ln ∈ linesOf text.data) := by
  unfold split_for_telegram at hp
  obtain ⟨l, hl, rfl⟩ := List.mem_map.mp hp
  have h := splitChunks_sound max_len hml text.data.length text.data (le_refl _) l hl
  exact ⟨h.1, fun hyp hln => h.2 hyp ln hln⟩

/-- Witness for C3's amended claim on a short two-line text. -/
theorem split_for_telegram_spec_witness :
    ("ab\ncd" : String).length ≤ 3900 ∧
    ((∀ l2 ∈ linesOf ("ab\ncd" : String).data, l2.length ≤ 3900) →
      ['a', 'b'] ∈ linesOf ("ab\ncd" : String).data →
      ['a', 'b'] ∈ linesOf ("ab\ncd" : String).data) :=
  split_for_telegram_spec "ab\ncd" 3900 "ab\ncd" ['a', 'b'] (by decide) (by decide)

theorem lastNLIdx_replicate_a : ∀ n : Nat, lastNLIdx (List.replicate n 'a') = none
  | 0 => rfl
  | n + 1 => by
    rw [List.replicate_succ]
    conv_lhs => unfold lastNLIdx
    rw [lastNLIdx_replicate_a n]
    decide

theorem splitChunks_short (max_len : Nat) (t : List Char) (h : t.length ≤ max_len) :
    ∀ fuel, splitChunks max_len fuel t = [t]
  | 0 => rfl
  | fuel + 1 => by
    unfold splitChunks
    rw [if_pos h]

theorem splitChunks_long_step (max_len fuel : Nat) (t : List Char)
    (h : ¬ t.length ≤ max_len) :
    splitChunks max_len (fuel + 1) t =
      t.take ((lastNLIdx (t.take max_len)).getD max_len) ::
        splitChunks max_len fuel
          ((t.drop ((lastNLIdx (t.take max_len)).getD max_len)).dropWhile
            (fun c => c = '\n')) := by
  conv_lhs => unfold splitChunks
  rw [if_neg h]

/-- C3 counterexample: a single 3901-character line (no newline at all).
The chunker cuts it after 3900 characters, so the first chunk is a
"line" that is not a line of the input — a row IS cut in the middle.
(The length bound still holds; only the "splitting only at line
boundaries" half of the claim fails.) -/
theorem split_for_telegram_counterexample :
    split_for_telegram ⟨List.replicate 3901 'a'⟩ 3900 =
      [⟨List.replicate 3900 'a'⟩, "a"] ∧
    linesOf (List.replicate 3901 'a') = [List.replicate 3901 'a'] ∧
    linesOf (List.replicate 3900 'a') = [List.replicate 3900 'a'] ∧
    (List.replicate 3900 'a') ∉ linesOf (List.replicate 3901 'a') := by
  have hno : ∀ n : Nat, ∀ c ∈ List.replicate n 'a', ¬ c = '\n' := by
    intro n c hc
    rw [List.eq_of_mem_replicate hc]
    decide
  have hlines : ∀ n : Nat, linesOf (List.replicate n 'a') = [List.replicate n 'a'] :=
    fun n => linesOf_no_nl _ (hno n)
  refine ⟨?_, hlines 3901, hlines 3900, ?_⟩
  · unfold split_for_telegram
    show (splitChunks 3900 (List.replicate 3901 'a').length (List.replicate 3901 'a')).map
        (fun l => (⟨l⟩ : String)) = _
    rw [List.length_replicate]
    rw [show (3901 : Nat) = 3900 + 1 from rfl]
    rw [splitChunks_long_step 3900 3900 (List.replicate (3900 + 1) 'a')
      (by rw [List.length_replicate]; omega)]
    have hwin : lastNLIdx ((List.replicate (3900 + 1) 'a').take 3900) = none := by
      rw [List.take_replicate, show min 3900 (3900 + 1) = 3900 from rfl,
        lastNLIdx_replicate_a]
    rw [hwin]
    simp only [Option.getD_none]
    rw [List.take_replicate, show min 3900 (3900 + 1) = 3900 from rfl]
    rw [List.drop_replicate, show 3900 + 1 - 3900 = 1 from rfl]
    rw [show (List.replicate 1 'a').dropWhile (fun c => c = '\n') = List.replicate 1 'a'
        from by decide]
    rw [splitChunks_short 3900 (List.replicate 1 'a') (by decide) 3900]
    rw [List.map_cons, List.map_cons, List.map_nil]
    rw [show (⟨List.replicate 1 'a'⟩ : String) = "a" from by decide]
  · rw [hlines 3901]
    intro hmem
    have heq := List.mem_singleton.mp hmem
    have hlen := congrArg List.length heq
    rw [List.length_replicate, List.length_replicate] at hlen
    omega

end AttendanceBot
